import Mathlib

/-!
Verification of the keyvalues-storage specification against the source.

The repository is a JSON-backed key-value store.  Two generations of the
facade live side by side in the source tree: `src/keyvalues.ts` (embedded
below in namespace `V1`) and `src/core/keyvalues.ts` (namespace `Core`);
both delegate disk work to `src/internal/JsonFileHelper.ts` (namespace
`JFH`) and path work to lodash (`get`/`set`/`has`/`unset`, embedded in
namespace `Lodash`).

Modelling conventions, fixed once here:
* JSON numbers are modelled as integers.  Fractional and exponent literals,
  and the float formatting of JavaScript, are outside the embedding; no
  claim exercises them.  Our parser treats a fractional literal as
  unparsable.
* A JavaScript string is a Lean `String`; lone-surrogate escapes cannot be
  represented and are outside the model.
* JavaScript objects are association lists with unique keys in insertion
  order.  Assignment to an existing key replaces the value in place, as a
  JS property write does; assignment to a fresh key appends.
* JS arrays are lists of values.  Array holes (created by out-of-bounds
  index assignment or by `delete` on an element) are modelled as explicit
  `null`s: `JSON.stringify` prints a hole as `null`, which is the
  behaviour the claims observe.  Non-index string properties of arrays
  (expando properties, and writes to `length`) are outside the model;
  the round-trip theorem for `set` restricts paths accordingly.
* The file system is the content of the one resolved file:
  `Option String`, `none` meaning the file is absent.  Directory creation
  and the mechanics of atomic writes change no observable content and are
  not modelled; `atomicSave` therefore does not appear in the written
  text, exactly as in the source.
-/

/-- A JSON-compatible document value, as produced by `JSON.parse` and
manipulated by lodash in the source. -/
inductive JsonValue where
  | jnull
  | jbool (b : Bool)
  | jnum (n : Int)
  | jstr (s : String)
  | jarr (elems : List JsonValue)
  | jobj (fields : List (String × JsonValue))

/-! ## Serialization: the model of `JSON.stringify(value, null, space)`

`JsonFileHelper.saveKeyValues` / `saveKeyValuesSync` compute
`JSON.stringify(obj, null, numSpaces)` with `numSpaces = 0` when
`prettify` is false.  We embed the ECMA-262 algorithm: the gap is
`min(space, 10)` spaces; an empty gap produces the compact form, a
non-empty gap inserts newline-plus-indent separators and a space after
each member colon.  Empty containers print as `[]` and the two-brace
object regardless of the gap. -/

/-- One hexadecimal digit, lower case, as `JSON.stringify` emits for
control characters. -/
def hexDigit (n : Nat) : Char :=
  if n < 10 then Char.ofNat (48 + n) else Char.ofNat (87 + n)

def braceOpen : Char := Char.ofNat 123

def braceClose : Char := Char.ofNat 125

/-- Escaping of a single character inside a JSON string literal
(ECMA-262 QuoteJSONString). -/
def escapeJsonChar (c : Char) : String :=
  if c = '"' then "\\\""
  else if c = '\\' then "\\\\"
  else if c = '\n' then "\\n"
  else if c = '\r' then "\\r"
  else if c = '\t' then "\\t"
  else if c.toNat = 8 then "\\b"
  else if c.toNat = 12 then "\\f"
  else if c.toNat < 32 then
    "\\u00" ++ String.singleton (hexDigit (c.toNat / 16)) ++
      String.singleton (hexDigit (c.toNat % 16))
  else String.singleton c

/-- A JSON string literal with its surrounding quotes. -/
def jsonQuote (s : String) : String :=
  "\"" ++ String.join (s.toList.map escapeJsonChar) ++ "\""

mutual

/-- Core of `JSON.stringify`: serialize one value at the given current
indentation, ECMA-262 SerializeJSONProperty. -/
def stringifyV (gap indent : String) : JsonValue → String
  | .jnull => "null"
  | .jbool b => if b then "true" else "false"
  | .jnum n => toString n
  | .jstr s => jsonQuote s
  | .jarr [] => "[]"
  | .jarr (v :: vs) =>
    let ind := indent ++ gap
    if gap = "" then
      "[" ++ stringifyV gap ind v ++ itemsTail gap ind vs ++ "]"
    else
      "[" ++ "\n" ++ ind ++ stringifyV gap ind v ++ itemsTail gap ind vs ++
        "\n" ++ indent ++ "]"
  | .jobj [] => "\x7b\x7d"
  | .jobj (m :: ms) =>
    let ind := indent ++ gap
    if gap = "" then
      "\x7b" ++ memberStr gap ind m ++ membersTail gap ind ms ++ "\x7d"
    else
      "\x7b" ++ "\n" ++ ind ++ memberStr gap ind m ++ membersTail gap ind ms ++
        "\n" ++ indent ++ "\x7d"

/-- The remaining array elements, each preceded by the element separator. -/
def itemsTail (gap ind : String) : List JsonValue → String
  | [] => ""
  | v :: vs =>
    (if gap = "" then "," else "," ++ "\n" ++ ind) ++ stringifyV gap ind v ++
      itemsTail gap ind vs

/-- One object member: quoted key, colon (with a space when the gap is
non-empty), value. -/
def memberStr (gap ind : String) : String × JsonValue → String
  | (k, v) => jsonQuote k ++ (if gap = "" then ":" else ": ") ++ stringifyV gap ind v

/-- The remaining object members, each preceded by the member separator. -/
def membersTail (gap ind : String) : List (String × JsonValue) → String
  | [] => ""
  | m :: ms =>
    (if gap = "" then "," else "," ++ "\n" ++ ind) ++ memberStr gap ind m ++
      membersTail gap ind ms

end

/-- The model of `JSON.stringify(v, null, space)`: gap capped at ten
spaces, top level starts with an empty indent (ECMA-262). -/
def jsonStringify (space : Nat) (v : JsonValue) : String :=
  stringifyV ("".pushn ' ' (Nat.min space 10)) "" v

mutual

/-- The specification's compact serialization, written directly from its
words: JSON text with no inserted whitespace. -/
def compactV : JsonValue → String
  | .jnull => "null"
  | .jbool b => if b then "true" else "false"
  | .jnum n => toString n
  | .jstr s => jsonQuote s
  | .jarr [] => "[]"
  | .jarr (v :: vs) => "[" ++ compactV v ++ compactItemsTail vs ++ "]"
  | .jobj [] => "\x7b\x7d"
  | .jobj (m :: ms) => "\x7b" ++ compactMember m ++ compactMembersTail ms ++ "\x7d"

def compactItemsTail : List JsonValue → String
  | [] => ""
  | v :: vs => "," ++ compactV v ++ compactItemsTail vs

def compactMember : String × JsonValue → String
  | (k, v) => jsonQuote k ++ ":" ++ compactV v

def compactMembersTail : List (String × JsonValue) → String
  | [] => ""
  | m :: ms => "," ++ compactMember m ++ compactMembersTail ms

end

/-! ## Parsing: the model of `JSON.parse`

`JsonFileHelper.loadKeyValues` / `loadKeyValuesSync` call
`JSON.parse` on the file text.  We embed a strict recursive-descent
parser for the JSON grammar (whitespace, null, booleans, integer
numbers, strings with escapes, arrays, objects), driven by a fuel
counter for termination.  `JSON.parse` keeps the last of a repeated
object key while preserving the first key's position, which is exactly
`objInsert` below. -/

/-- JSON insignificant whitespace (space, tab, line feed, carriage return). -/
def jsonWs (c : Char) : Bool :=
  c = ' ' || c = '\t' || c = '\n' || c = '\r'

def skipWs : List Char → List Char
  | [] => []
  | c :: cs => if jsonWs c then skipWs cs else c :: cs

/-- Property write on a JS object: overwrite in place if the key exists
(keeping its position in insertion order), append otherwise. -/
def objInsert (fields : List (String × JsonValue)) (k : String) (v : JsonValue) :
    List (String × JsonValue) :=
  match fields with
  | [] => [(k, v)]
  | (l, w) :: rest => if l = k then (k, v) :: rest else (l, w) :: objInsert rest k v

def hexVal (c : Char) : Option Nat :=
  if '0' ≤ c ∧ c ≤ '9' then some (c.toNat - 48)
  else if 'a' ≤ c ∧ c ≤ 'f' then some (c.toNat - 87)
  else if 'A' ≤ c ∧ c ≤ 'F' then some (c.toNat - 55)
  else none

/-- Body of a JSON string literal after the opening quote, decoding the
escape sequences; surrogate `\u` pairs are outside the model (see the
header note). -/
def parseStrBody : Nat → List Char → Option (String × List Char)
  | 0, _ => none
  | fuel + 1, cs =>
    match cs with
    | [] => none
    | c :: rest =>
      if c = '"' then some ("", rest)
      else if c = '\\' then
        match rest with
        | [] => none
        | e :: rest2 =>
          let dec :=
            if e = '"' then some ('"', rest2)
            else if e = '\\' then some ('\\', rest2)
            else if e = '/' then some ('/', rest2)
            else if e = 'b' then some (Char.ofNat 8, rest2)
            else if e = 'f' then some (Char.ofNat 12, rest2)
            else if e = 'n' then some ('\n', rest2)
            else if e = 'r' then some ('\r', rest2)
            else if e = 't' then some ('\t', rest2)
            else if e = 'u' then
              match rest2 with
              | h1 :: h2 :: h3 :: h4 :: rest3 =>
                match hexVal h1, hexVal h2, hexVal h3, hexVal h4 with
                | some a, some b, some c2, some d =>
                  some (Char.ofNat (((a * 16 + b) * 16 + c2) * 16 + d), rest3)
                | _, _, _, _ => none
              | _ => none
            else none
          match dec with
          | some (ch, rest3) =>
            (parseStrBody fuel rest3).map fun r => (String.singleton ch ++ r.1, r.2)
          | none => none
      else if c.toNat < 32 then none
      else (parseStrBody fuel rest).map fun r => (String.singleton c ++ r.1, r.2)

/-- A run of decimal digits, at least one. -/
def parseDigits : List Char → Option (List Char × List Char)
  | [] => none
  | c :: cs =>
    if c.isDigit then
      match parseDigits cs with
      | some (ds, rest) => some (c :: ds, rest)
      | none => some ([c], cs)
    else none

def digitsToNat (ds : List Char) : Nat :=
  ds.foldl (fun acc c => acc * 10 + (c.toNat - 48)) 0

/-- A JSON number literal.  The JSON grammar forbids a leading zero before
further digits; a following fraction or exponent marker falls outside the
integral model and is treated as unparsable (header note). -/
def parseNumber (cs : List Char) : Option (JsonValue × List Char) :=
  let core : List Char → Option (Int × List Char) := fun cs2 =>
    match parseDigits cs2 with
    | some (ds, rest) =>
      if ds.length > 1 ∧ ds.headI = '0' then none
      else
        match rest with
        | c :: _ => if c = '.' ∨ c = 'e' ∨ c = 'E' then none else some (digitsToNat ds, rest)
        | [] => some (digitsToNat ds, rest)
    | none => none
  match cs with
  | c :: rest =>
    if c = '-' then (core rest).map fun r => (JsonValue.jnum (-r.1), r.2)
    else (core cs).map fun r => (JsonValue.jnum r.1, r.2)
  | [] => none

def expectChars : List Char → List Char → Option (List Char)
  | [], cs => some cs
  | e :: es, c :: cs => if c = e then expectChars es cs else none
  | _ :: _, [] => none

mutual

/-- One JSON value, leading whitespace allowed. -/
def parseV : Nat → List Char → Option (JsonValue × List Char)
  | 0, _ => none
  | fuel + 1, cs0 =>
    match skipWs cs0 with
    | [] => none
    | c :: rest =>
      if c = 'n' then (expectChars ['u', 'l', 'l'] rest).map fun r => (JsonValue.jnull, r)
      else if c = 't' then
        (expectChars ['r', 'u', 'e'] rest).map fun r => (JsonValue.jbool true, r)
      else if c = 'f' then
        (expectChars ['a', 'l', 's', 'e'] rest).map fun r => (JsonValue.jbool false, r)
      else if c = '"' then (parseStrBody (rest.length + 1) rest).map fun r => (JsonValue.jstr r.1, r.2)
      else if c = '[' then
        match skipWs rest with
        | d :: rest2 =>
          if d = ']' then some (JsonValue.jarr [], rest2)
          else (parseItems fuel (d :: rest2)).map fun r => (JsonValue.jarr r.1, r.2)
        | [] => none
      else if c = braceOpen then
        match skipWs rest with
        | d :: rest2 =>
          if d = braceClose then some (JsonValue.jobj [], rest2)
          else (parseMembers fuel (d :: rest2)).map fun r => (JsonValue.jobj r.1, r.2)
        | [] => none
      else parseNumber (c :: rest)

/-- Comma-separated array elements up to the closing bracket. -/
def parseItems : Nat → List Char → Option (List JsonValue × List Char)
  | 0, _ => none
  | fuel + 1, cs =>
    match parseV fuel cs with
    | some (v, rest) =>
      (match skipWs rest with
       | c :: rest2 =>
         if c = ',' then (parseItems fuel rest2).map fun r => (v :: r.1, r.2)
         else if c = ']' then some ([v], rest2)
         else none
       | [] => none)
    | none => none

/-- Comma-separated object members up to the closing brace. -/
def parseMembers : Nat → List Char → Option (List (String × JsonValue) × List Char)
  | 0, _ => none
  | fuel + 1, cs =>
    match skipWs cs with
    | c :: rest =>
      if c = '"' then
        match parseStrBody (rest.length + 1) rest with
        | some (k, rest2) =>
          (match skipWs rest2 with
           | d :: rest3 =>
             if d = ':' then
               match parseV fuel rest3 with
               | some (v, rest4) =>
                 (match skipWs rest4 with
                  | e :: rest5 =>
                    if e = ',' then
                      (parseMembers fuel rest5).map fun r => (objInsert r.1 k v, r.2)
                    else if e = braceClose then some ([(k, v)], rest5)
                    else none
                  | [] => none)
               | none => none
             else none
           | [] => none)
        | none => none
      else none
    | [] => none

end

/-- The model of `JSON.parse`: one value surrounded by optional
whitespace, nothing after it.  `none` is the thrown `SyntaxError`. -/
def jsonParse (s : String) : Option JsonValue :=
  let cs := s.toList
  match parseV (cs.length + 1) cs with
  | some (v, rest) => if skipWs rest = [] then some v else none
  | none => none

/-! ## The path resolver: lodash `get` / `has` / `set` / `unset`

The facade delegates all path work to lodash.  A key path reaches
lodash either as an array of segments or as a string; `castPath`
normalizes both to a list of string keys (`toKey` turns numeric
segments into their decimal spelling).  We take paths in normalized
form: a segment-list (`karr`, the API's array form, segments already
spelled as strings) or a single-word string (`kstr`, a string lodash's
`isKey` accepts whole — no dot, no bracket — which includes the empty
string).  Dotted or bracketed strings are normalized by lodash's
`stringToPath` into exactly such a segment list before any semantics
apply, so taking paths in normalized form loses nothing the claims
speak about. -/

namespace Lodash

/-- A canonical unsigned-integer property name, lodash's `reIsUint`:
`0`, or digits without a leading zero.  These are the strings that
address array elements. -/
def isUintStr (s : String) : Bool :=
  match s.toList with
  | [] => false
  | ['0'] => true
  | c :: cs => c ≠ '0' && (c :: cs).all Char.isDigit

/-- The array index denoted by a key, when the key is a canonical index
spelling (`arr["3"]` is element 3; `arr["03"]` is not an element). -/
def parseUintStr (s : String) : Option Nat :=
  if isUintStr s then some (digitsToNat s.toList) else none

/-- lodash `isObject`: objects and arrays; `null`, strings and the other
primitives are not objects. -/
def isObjectJS : JsonValue → Bool
  | .jobj _ => true
  | .jarr _ => true
  | _ => false

/-- First-match lookup of an own property of a JS object literal. -/
def objLookup (fields : List (String × JsonValue)) (k : String) : Option JsonValue :=
  match fields with
  | [] => none
  | (l, w) :: rest => if l = k then some w else objLookup rest k

/-- `delete` of an own property of a JS object literal. -/
def objErase (fields : List (String × JsonValue)) (k : String) :
    List (String × JsonValue) :=
  match fields with
  | [] => []
  | (l, w) :: rest => if l = k then rest else (l, w) :: objErase rest k

/-- JS member read `v[k]`, own properties: object keys, array elements by
canonical index, and single-character reads of strings ("hi"[0] is "h").
`none` is JavaScript's `undefined`.  The `length` property of arrays and
strings, and expando properties, are outside the model (header note). -/
def getOwn : JsonValue → String → Option JsonValue
  | .jobj f, k => objLookup f k
  | .jarr l, k =>
    (match parseUintStr k with
     | some n => l[n]?
     | none => none)
  | .jstr s, k =>
    (match parseUintStr k with
     | some n => (s.toList[n]?).map fun c => JsonValue.jstr (String.singleton c)
     | none => none)
  | _, _ => none

/-- Remaining descent of lodash `baseGet` once the loop has started:
stops with `undefined` as soon as the current value is missing. -/
def descend : Option JsonValue → List String → Option JsonValue
  | o, [] => o
  | some v, k :: ks => descend (getOwn v k) ks
  | none, _ :: _ => none

/-- lodash `baseGet` (the engine of `_.get`): an empty path yields
`undefined` (the `index && index == length` final test), a non-empty
path descends through `getOwn`. -/
def baseGet (v : JsonValue) (path : List String) : Option JsonValue :=
  match path with
  | [] => none
  | k :: ks => descend (getOwn v k) ks

/-- lodash `hasPath` with `hasOwnProperty` (the engine of `_.has`): every
segment must be an own property of its parent; an empty path is `false`. -/
def hasPath : JsonValue → List String → Bool
  | _, [] => false
  | v, k :: ks =>
    match getOwn v k with
    | none => false
    | some w => ks.isEmpty || hasPath w ks

/-- JS array element write `arr[n] = x`: in-bounds replaces, out-of-bounds
extends the array, the skipped positions becoming holes (modelled as
nulls, header note). -/
def arrAssign (l : List JsonValue) (n : Nat) (x : JsonValue) : List JsonValue :=
  if n < l.length then l.set n x
  else l ++ List.replicate (n - l.length) JsonValue.jnull ++ [x]

/-- lodash `assignValue` on a single container: object property write,
array element write by canonical index.  A non-index key on an array
would create a property invisible to JSON serialization (outside the
model); assignment to a primitive is silently ignored (sloppy mode). -/
def assignOwn : JsonValue → String → JsonValue → JsonValue
  | .jobj f, k, x => .jobj (objInsert f k x)
  | .jarr l, k, x =>
    (match parseUintStr k with
     | some n => .jarr (arrAssign l n x)
     | none => .jarr l)
  | v, _, _ => v

/-- The fresh intermediate container `baseSet` creates when the next
segment looks like an array index (lodash `isIndex`). -/
def freshFor (nextKey : String) : JsonValue :=
  if isUintStr nextKey then JsonValue.jarr [] else JsonValue.jobj []

/-- The `newValue` computation of `baseSet` for a non-terminal segment:
keep the existing child when it is an object, otherwise create a fresh
container chosen by the following segment. -/
def childFor (d : JsonValue) (k nextKey : String) : JsonValue :=
  match getOwn d k with
  | some w => if isObjectJS w then w else freshFor nextKey
  | none => freshFor nextKey

/-- The walking loop of lodash `baseSet`, written functionally: assign at
the terminal segment, rebuild through `childFor` on the way.  An empty
path performs no iteration and leaves the value unchanged. -/
def setGo : JsonValue → List String → JsonValue → JsonValue
  | d, [], _ => d
  | d, [k], v => assignOwn d k v
  | d, k :: k2 :: ks, v => assignOwn d k (setGo (childFor d k k2) (k2 :: ks) v)

/-- lodash `baseSet` (the engine of `_.set`): a non-object root is
returned untouched. -/
def setPath (d : JsonValue) (path : List String) (v : JsonValue) : JsonValue :=
  if isObjectJS d then setGo d path v else d

/-- Whether `delete` on a string wrapper fails: its index properties and
`length` are non-configurable. -/
def strDeleteFails (s : String) (k : String) : Bool :=
  k = "length" ||
    (match parseUintStr k with
     | some n => n < s.length
     | none => false)

/-- JS `delete parent[k]` on one container, with its return value.
Deleting an object key always reports `true` (present or not); deleting
an array element in bounds leaves a hole (a null here) and reports
`true`; only the non-configurable properties of primitive wrappers
(`length`, string indices) report `false`. -/
def deleteKey : JsonValue → String → JsonValue × Bool
  | .jobj f, k => (.jobj (objErase f k), true)
  | .jarr l, k =>
    (match parseUintStr k with
     | some n => if n < l.length then (.jarr (l.set n JsonValue.jnull), true) else (.jarr l, true)
     | none => (.jarr l, k ≠ "length"))
  | .jstr s, k => (.jstr s, !strDeleteFails s k)
  | v, _ => (v, true)

/-- Rebuild the document with a replaced value at an existing location
(the functional image of lodash mutating a parent in place). -/
def replaceAt : JsonValue → List String → JsonValue → JsonValue
  | _, [], x => x
  | d, k :: ks, x =>
    match getOwn d k with
    | some w => assignOwn d k (replaceAt w ks x)
    | none => d

/-- lodash `baseUnset` (the engine of `_.unset`): resolve the parent of
the terminal segment (the whole value for paths shorter than two
segments), then `parent == null || delete parent[lastKey]`.  An empty
path makes `toKey(undefined)`, i.e. the literal key `undefined`, the
deletion target. -/
def unsetPath (doc : JsonValue) (path : List String) : JsonValue × Bool :=
  match path with
  | [] => deleteKey doc "undefined"
  | [k] => deleteKey doc k
  | _ :: _ :: _ =>
    let pp := path.dropLast
    let lk := path.getLastD "undefined"
    match baseGet doc pp with
    | none => (doc, true)
    | some .jnull => (doc, true)
    | some p =>
      let r := deleteKey p lk
      (replaceAt doc pp r.1, r.2)

/-- The well-behaved paths for the `set` round trip: whenever the walk
stands on an array (an existing one, or one `baseSet` will create), the
segment addressing it is a canonical index.  Object segments are
unrestricted. -/
def arrKeyOk : JsonValue → String → Bool
  | .jarr _, k => (parseUintStr k).isSome
  | _, _ => true

def pathOk : JsonValue → List String → Bool
  | _, [] => true
  | d, [k] => arrKeyOk d k
  | d, k :: k2 :: ks => arrKeyOk d k && pathOk (childFor d k k2) (k2 :: ks)

end Lodash

/-! ## Key paths as the facade receives them -/

/-- A key path argument: a single-word string (lodash `isKey`; covers the
empty string, whose JS truthiness the facade tests), or the normalized
segment list of the API's array form. -/
inductive KeyPath where
  | kstr (s : String)
  | karr (segs : List String)

/-- JavaScript truthiness of a key path value: the empty string is falsy;
every array (even `[]`) is truthy. -/
def KeyPath.truthy : KeyPath → Bool
  | .kstr s => s ≠ ""
  | .karr _ => true

/-- lodash `castPath` on normalized paths: a single-word string is the
one-segment path, an array passes through. -/
def castPath : KeyPath → List String
  | .kstr s => [s]
  | .karr l => l

/-! ## The persistence gateway: `src/internal/JsonFileHelper.ts`

The `core` generation imports its helper from `./utils`, whose
implementation file is not part of this source snapshot; per the spec
(§4.2) its load/save contract is the same as the internal helper's, so
both facades below share this model. -/

/-- Whitespace for JavaScript's `String.prototype.trim` (space, tab and
the line terminators; the exotic Unicode space code points are not
exercised by any claim). -/
def jsWsChar (c : Char) : Bool :=
  c = ' ' || c = '\t' || c = '\n' || c = '\r' || c = '\x0b' || c = '\x0c'

/-- JavaScript `s.trim()`: strip that whitespace from both ends. -/
def jsTrim (s : String) : String :=
  String.mk (((s.toList.dropWhile jsWsChar).reverse.dropWhile jsWsChar).reverse)

/-- Whether a string ends with a path separator. -/
def endsWithSlash (s : String) : Bool :=
  match s.toList.getLast? with
  | some c => c = '/'
  | none => false

namespace JFH

def DEFAULT_DIR_NAME : String := "localdb"

def DEFAULT_FILE_NAME : String := "keyvalues.json"

/-- The configuration record (`Options` in `src/internal/types.ts`):
`dir` is optional, the other fields are required.  `numSpaces` is a
non-negative count here (the `int` of the source; negative counts would
behave as zero in `JSON.stringify` and no claim uses them). -/
structure Options where
  atomicSave : Bool
  dir : Option String
  fileName : String
  prettify : Bool
  numSpaces : Nat

/-- `path.join` for the shapes this code produces: a current-directory
or empty left part disappears, otherwise the parts are joined with a
slash.  (Full Node path normalization — `..`, doubled slashes — is not
exercised by any claim.) -/
def pathJoin (a b : String) : String :=
  if a = "" ∨ a = "./" ∨ a = "." then b
  else if endsWithSlash a then a ++ b
  else a ++ "/" ++ b

/-- `path.resolve(p)` of a relative name against the process working
directory (taken absolute). -/
def pathResolve (cwd p : String) : String := pathJoin cwd p

/-- `JsonFileHelper.getJsonDirPath`: the configured directory if present
(else the cwd-resolved default directory), trimmed, with the empty
result replaced by `./`. -/
def getJsonDirPath (cwd : String) (o : Options) : String :=
  let dir := jsTrim (o.dir.getD (pathResolve cwd DEFAULT_DIR_NAME))
  if dir = "" then "./" else dir

/-- `JsonFileHelper.getJsonFilePath`: the directory joined with the
trimmed file name, the empty trimmed name replaced by the default. -/
def getJsonFilePath (cwd : String) (o : Options) : String :=
  let dir := getJsonDirPath cwd o
  let f := jsTrim o.fileName
  pathJoin dir (if f = "" then DEFAULT_FILE_NAME else f)

/-- The exact text a save writes: `JSON.stringify(obj, null, numSpaces)`
with `numSpaces` zero when `prettify` is false.  `atomicSave` selects
the write mechanism, not the content. -/
def savedContent (o : Options) (d : JsonValue) : String :=
  jsonStringify (if o.prettify then o.numSpaces else 0) d

/-- `saveKeyValues`: the file afterwards holds exactly the serialized
text. -/
def saveKeyValues (o : Options) (d : JsonValue) : Option String :=
  some (savedContent o d)

/-- `saveKeyValuesSync`: same serialized text, written without
suspension. -/
def saveKeyValuesSync (o : Options) (d : JsonValue) : Option String :=
  some (savedContent o d)

/-- The file content after `ensureJsonFile`: an absent file is created
holding the empty document's serialization. -/
def ensuredContent (o : Options) (fs : Option String) : String :=
  match fs with
  | some c => c
  | none => savedContent o (JsonValue.jobj [])

/-- The stand-in for the host's `SyntaxError` message from `JSON.parse`
(its exact wording is environment-specific; the claims concern failure
and wrapping, not the wording). -/
def parseErrorMessage : String := "Unexpected token in JSON"

/-- `loadKeyValues` (non-blocking): ensure the file, read it, parse
`data || "\x7b\x7d"`; a parse failure rejects. -/
def loadKeyValues (o : Options) (fs : Option String) : Except String JsonValue :=
  let data := ensuredContent o fs
  let jsonData := if data = "" then "\x7b\x7d" else data
  match jsonParse jsonData with
  | some v => .ok v
  | none => .error parseErrorMessage

/-- `loadKeyValuesSync`: ensure the file, read it, parse
`data.length ? data : "\x7b\x7d"`; a parse failure throws. -/
def loadKeyValuesSync (o : Options) (fs : Option String) : Except String JsonValue :=
  let data := ensuredContent o fs
  let jsonData := if data = "" then "\x7b\x7d" else data
  match jsonParse jsonData with
  | some v => .ok v
  | none => .error parseErrorMessage

/-- The file state after a load's ensure step (load itself writes nothing
further). -/
def fsAfterLoad (o : Options) (fs : Option String) : Option String :=
  some (ensuredContent o fs)

end JFH

/-! ## The facade, first generation: `src/keyvalues.ts` -/

namespace V1

open Lodash JFH

/-- `KeyValues.get` / its keyed overload: load, then `_get` when a truthy
key path was given, the whole document otherwise; any load failure is
rewrapped with the stable prefix.  The result `none` is `undefined`. -/
def get (o : Options) (fs : Option String) (kp : Option KeyPath) :
    Except String (Option JsonValue) :=
  match loadKeyValues o fs with
  | .error e => .error ("Failed to get value: " ++ e)
  | .ok obj =>
    .ok (match kp with
         | some p => if p.truthy then baseGet obj (castPath p) else some obj
         | none => some obj)

/-- `KeyValues.getSync`: same dispatch on the key path, but the
underlying failure propagates as it is — there is no try/catch in the
source of the blocking form. -/
def getSync (o : Options) (fs : Option String) (kp : Option KeyPath) :
    Except String (Option JsonValue) :=
  match loadKeyValuesSync o fs with
  | .error e => .error e
  | .ok obj =>
    .ok (match kp with
         | some p => if p.truthy then baseGet obj (castPath p) else some obj
         | none => some obj)

/-- `KeyValues.has`: load then `_has`; the key path is a required
argument and is handed to lodash unexamined. -/
def has (o : Options) (fs : Option String) (p : KeyPath) : Except String Bool :=
  match loadKeyValues o fs with
  | .error e => .error e
  | .ok obj => .ok (hasPath obj (castPath p))

/-- `KeyValues.hasSync`: the blocking form of `has`. -/
def hasSync (o : Options) (fs : Option String) (p : KeyPath) : Except String Bool :=
  match loadKeyValuesSync o fs with
  | .error e => .error e
  | .ok obj => .ok (hasPath obj (castPath p))

/-- `KeyValues.set` with one argument: whole-document replace, a direct
save of the given value. -/
def setAll (o : Options) (v : JsonValue) : Option String :=
  saveKeyValues o v

/-- `KeyValues.set` with a key path: load, `_set`, save. -/
def setAt (o : Options) (fs : Option String) (p : KeyPath) (v : JsonValue) :
    Except String (Option String) :=
  match loadKeyValues o fs with
  | .error e => .error e
  | .ok obj => .ok (saveKeyValues o (setPath obj (castPath p) v))

/-- The no-path branch shared by `unset()` and `unsetSync()`: save an
empty object and report true unless the loaded document already
stringifies to the empty object. -/
def unsetAllBranch (o : Options) (fs : Option String) (obj : JsonValue) :
    Option String × Bool :=
  if jsonStringify 0 obj = "\x7b\x7d" then (fsAfterLoad o fs, false)
  else (saveKeyValues o (JsonValue.jobj []), true)

/-- `KeyValues.unset`: load; with a truthy key path, `_unset` and save
only when it reported success, returning that report; with no (or a
falsy) key path, the whole-document clear above. -/
def unset (o : Options) (fs : Option String) (kp : Option KeyPath) :
    Except String (Option String × Bool) :=
  match loadKeyValues o fs with
  | .error e => .error e
  | .ok obj =>
    match kp with
    | some p =>
      if p.truthy then
        let r := unsetPath obj (castPath p)
        if r.2 then .ok (saveKeyValues o r.1, true)
        else .ok (fsAfterLoad o fs, false)
      else .ok (unsetAllBranch o fs obj)
    | none => .ok (unsetAllBranch o fs obj)

/-- `KeyValues.unsetSync`: the blocking form; its body is the same
decision logic with blocking I/O. -/
def unsetSync (o : Options) (fs : Option String) (kp : Option KeyPath) :
    Except String (Option String × Bool) :=
  match loadKeyValuesSync o fs with
  | .error e => .error e
  | .ok obj =>
    match kp with
    | some p =>
      if p.truthy then
        let r := unsetPath obj (castPath p)
        if r.2 then .ok (saveKeyValuesSync o r.1, true)
        else .ok (fsAfterLoad o fs, false)
      else .ok (unsetAllBranch o fs obj)
    | none => .ok (unsetAllBranch o fs obj)

end V1

/-! ## The facade, second generation: `src/core/keyvalues.ts`

Only where its logic differs from the first generation: `unset` and
`unsetSync` first test the loaded document for emptiness and, on a
non-empty document, save the empty object whenever the keyed `_unset`
did not report success (including when it was never called because the
key path was falsy). -/

namespace Core

open Lodash JFH

/-- `KeyValues.unset` of `src/core/keyvalues.ts`. -/
def unset (o : Options) (fs : Option String) (kp : Option KeyPath) :
    Except String (Option String × Bool) :=
  match loadKeyValues o fs with
  | .error e => .error e
  | .ok obj =>
    if jsonStringify 0 obj = "\x7b\x7d" then .ok (fsAfterLoad o fs, false)
    else
      match kp with
      | some p =>
        if p.truthy then
          let r := unsetPath obj (castPath p)
          if r.2 then .ok (saveKeyValues o r.1, true)
          else .ok (saveKeyValues o (JsonValue.jobj []), true)
        else .ok (saveKeyValues o (JsonValue.jobj []), true)
      | none => .ok (saveKeyValues o (JsonValue.jobj []), true)

/-- `KeyValues.unsetSync` of `src/core/keyvalues.ts`. -/
def unsetSync (o : Options) (fs : Option String) (kp : Option KeyPath) :
    Except String (Option String × Bool) :=
  match loadKeyValuesSync o fs with
  | .error e => .error e
  | .ok obj =>
    if jsonStringify 0 obj = "\x7b\x7d" then .ok (fsAfterLoad o fs, false)
    else
      match kp with
      | some p =>
        if p.truthy then
          let r := unsetPath obj (castPath p)
          if r.2 then .ok (saveKeyValuesSync o r.1, true)
          else .ok (saveKeyValuesSync o (JsonValue.jobj []), true)
        else .ok (saveKeyValuesSync o (JsonValue.jobj []), true)
      | none => .ok (saveKeyValuesSync o (JsonValue.jobj []), true)

end Core

/-! ## The facade instance and its configuration life cycle

`new KeyValues(options)` merges the custom options over the defaults
and hands the merged record to `new JsonFileHelper(...)` — in
JavaScript, the very object the facade field refers to.  `reset()`
rebinds the facade's own field to a fresh copy of the defaults but the
helper keeps the reference it captured, so the two copies are tracked
separately here. -/

/-- A partial options argument to the constructor: absent fields fall
back to the defaults. -/
structure PartialOptions where
  atomicSave : Option Bool
  dir : Option (Option String)
  fileName : Option String
  prettify : Option Bool
  numSpaces : Option Nat

/-- The spread `\x7b...this.options, ...options\x7d`. -/
def mergeOptions (base : JFH.Options) (p : PartialOptions) : JFH.Options :=
  JFH.Options.mk (p.atomicSave.getD base.atomicSave) (p.dir.getD base.dir)
    (p.fileName.getD base.fileName) (p.prettify.getD base.prettify)
    (p.numSpaces.getD base.numSpaces)

/-- The module-level `defaultOptions` of `src/keyvalues.ts` (and of
`src/core/keyvalues.ts`, which spells the same record). -/
def defaultOptions : JFH.Options :=
  JFH.Options.mk true (some JFH.DEFAULT_DIR_NAME) JFH.DEFAULT_FILE_NAME false 2

/-- The mutable state of a `KeyValues` instance: its own `options` field
and the record its `JsonFileHelper` captured at construction. -/
structure KV where
  options : JFH.Options
  helperOptions : JFH.Options

/-- The constructor: merge, then construct the helper on the merged
record (both fields see the same record). -/
def KV.make (p : Option PartialOptions) : KV :=
  let o := match p with
           | some po => mergeOptions defaultOptions po
           | none => defaultOptions
  KV.mk o o

/-- `KeyValues.reset` (`resetOptions` in the core generation): rebind the
facade's `options` to a fresh copy of the defaults.  The helper's
captured record is untouched — the source never reconstructs the
helper. -/
def KV.reset (kv : KV) : KV :=
  KV.mk defaultOptions kv.helperOptions

/-- `KeyValues.file()`: delegates to the helper, hence uses the record
the helper captured. -/
def KV.file (cwd : String) (kv : KV) : String :=
  JFH.getJsonFilePath cwd kv.helperOptions

/-- The parent value lodash `baseUnset` resolves before deleting: the
whole value for paths shorter than two segments, else `baseGet` of the
path without its last segment. -/
def Lodash.unsetParent (doc : JsonValue) (path : List String) : Option JsonValue :=
  if path.length < 2 then some doc else Lodash.baseGet doc path.dropLast

/-- The terminal deletion key of `baseUnset`; `toKey(undefined)` — the
literal string `undefined` — for the empty path. -/
def Lodash.lastKeyOf (path : List String) : String :=
  path.getLastD "undefined"

/-! ## Theorems -/

mutual

theorem stringify_compactV : ∀ (ind : String) (v : JsonValue),
    stringifyV "" ind v = compactV v
  | _, .jnull => rfl
  | _, .jbool _ => rfl
  | _, .jnum _ => rfl
  | _, .jstr _ => rfl
  | _, .jarr [] => rfl
  | ind, .jarr (v :: vs) => by
    simp [stringifyV, compactV, stringify_compactV ind v, itemsTail_compact ind vs]
  | _, .jobj [] => rfl
  | ind, .jobj ((k, v) :: ms) => by
    simp [stringifyV, compactV, memberStr, compactMember,
      stringify_compactV ind v, membersTail_compact ind ms]

theorem itemsTail_compact : ∀ (ind : String) (vs : List JsonValue),
    itemsTail "" ind vs = compactItemsTail vs
  | _, [] => rfl
  | ind, v :: vs => by
    simp [itemsTail, compactItemsTail, stringify_compactV ind v, itemsTail_compact ind vs]

theorem membersTail_compact : ∀ (ind : String) (ms : List (String × JsonValue)),
    membersTail "" ind ms = compactMembersTail ms
  | _, [] => rfl
  | ind, (k, v) :: ms => by
    simp [membersTail, compactMembersTail, memberStr, compactMember,
      stringify_compactV ind v, membersTail_compact ind ms]

end

/-- `JSON.stringify` with space zero is exactly the compact
serialization. -/
theorem jsonStringify_zero (d : JsonValue) : jsonStringify 0 d = compactV d := by
  have h : ("".pushn ' ' (Nat.min 0 10)) = "" := rfl
  rw [jsonStringify, h, stringify_compactV]

namespace Lodash

/-- One-step unfolding of `hasPath` on a non-empty path. -/
theorem hasPath_cons (v : JsonValue) (k : String) (ks : List String) :
    hasPath v (k :: ks) =
      match getOwn v k with
      | none => false
      | some w => ks.isEmpty || hasPath w ks := rfl

/-- One-step unfolding of `baseGet` on a non-empty path. -/
theorem baseGet_cons (v : JsonValue) (k : String) (ks : List String) :
    baseGet v (k :: ks) = descend (getOwn v k) ks := rfl

/-- Looking up the key just written finds the written value. -/
theorem objLookup_objInsert : ∀ (f : List (String × JsonValue)) (k : String) (x : JsonValue),
    objLookup (objInsert f k x) k = some x
  | [], k, x => by simp [objInsert, objLookup]
  | (l, w) :: rest, k, x => by
    simp only [objInsert]
    by_cases h : l = k
    · simp [h, objLookup]
    · simp [h, objLookup, objLookup_objInsert rest k x]

/-- Reading the element just written (in bounds or extending) gives the
written value. -/
theorem arrAssign_getElem (l : List JsonValue) (n : Nat) (x : JsonValue) :
    (arrAssign l n x)[n]? = some x := by
  unfold arrAssign
  by_cases h : n < l.length
  · simp [h, List.getElem?_set_eq_of_lt x h]
  · simp only [h, if_false]
    rw [List.append_assoc, List.getElem?_append_right (by omega),
      List.getElem?_append_right (by simp)]
    simp

/-- A member write is read back by member access, on any container whose
array keys are canonical indices. -/
theorem getOwn_assignOwn (d : JsonValue) (k : String) (x : JsonValue)
    (hc : isObjectJS d = true) (hk : arrKeyOk d k = true) :
    getOwn (assignOwn d k x) k = some x := by
  cases d with
  | jobj f => simpa [assignOwn, getOwn] using objLookup_objInsert f k x
  | jarr l =>
    simp only [arrKeyOk] at hk
    obtain ⟨n, hn⟩ := Option.isSome_iff_exists.mp hk
    simpa [assignOwn, getOwn, hn] using arrAssign_getElem l n x
  | jnull => simp [isObjectJS] at hc
  | jbool b => simp [isObjectJS] at hc
  | jnum n => simp [isObjectJS] at hc
  | jstr s => simp [isObjectJS] at hc

/-- The intermediate container `baseSet` walks into is always an object
or an array. -/
theorem childFor_isObject (d : JsonValue) (k nextKey : String) :
    isObjectJS (childFor d k nextKey) = true := by
  have hf : isObjectJS (freshFor nextKey) = true := by
    unfold freshFor
    split <;> rfl
  unfold childFor
  cases getOwn d k with
  | none => exact hf
  | some w =>
    by_cases h : isObjectJS w = true
    · simp [h]
    · simp only [Bool.not_eq_true] at h
      simpa [h] using hf

/-- The write/read round trip over the walking loop of `baseSet`. -/
theorem setGo_roundtrip : ∀ (p : List String) (d v : JsonValue),
    p ≠ [] → isObjectJS d = true → pathOk d p = true →
    hasPath (setGo d p v) p = true ∧ baseGet (setGo d p v) p = some v
  | [], _, _, h, _, _ => absurd rfl h
  | [k], d, v, _, hc, hk => by
    have hko : arrKeyOk d k = true := by simpa [pathOk] using hk
    have hg := getOwn_assignOwn d k v hc hko
    refine ⟨?_, ?_⟩
    · simp [setGo, hasPath, hg]
    · simp [setGo, baseGet, descend, hg]
  | k :: k2 :: ks, d, v, _, hc, hk => by
    have hk2 := hk
    simp only [pathOk, Bool.and_eq_true] at hk2
    have hcc := childFor_isObject d k k2
    have ih := setGo_roundtrip (k2 :: ks) (childFor d k k2) v (by simp) hcc hk2.2
    have hg := getOwn_assignOwn d k (setGo (childFor d k k2) (k2 :: ks) v) hc hk2.1
    refine ⟨?_, ?_⟩
    · show hasPath (assignOwn d k (setGo (childFor d k k2) (k2 :: ks) v)) (k :: k2 :: ks) = true
      rw [hasPath_cons, hg]
      simp [ih.1]
    · show baseGet (assignOwn d k (setGo (childFor d k k2) (k2 :: ks) v)) (k :: k2 :: ks)
        = some v
      rw [baseGet_cons, hg]
      have hd : descend (some (setGo (childFor d k k2) (k2 :: ks) v)) (k2 :: ks) =
          baseGet (setGo (childFor d k k2) (k2 :: ks) v) (k2 :: ks) := rfl
      rw [hd, ih.2]

end Lodash

/-- C6 amended: for every document whose root is an object or an array,
every non-empty normalized key path that addresses arrays only by
canonical index, and every value, writing with the path resolver's
`set` makes `has` true at that path and `get` read back exactly the
written value. -/
theorem c6_roundtrip (p : List String) (d v : JsonValue)
    (hne : p ≠ []) (hc : Lodash.isObjectJS d = true) (hok : Lodash.pathOk d p = true) :
    Lodash.hasPath (Lodash.setPath d p v) p = true ∧
      Lodash.baseGet (Lodash.setPath d p v) p = some v := by
  have h := Lodash.setGo_roundtrip p d v hne hc hok
  simpa [Lodash.setPath, hc] using h

/-- C6 witness: the concrete scenario of the specification,
`set("color.name", "sapphire")` on the empty document. -/
theorem c6_roundtrip_witness :
    Lodash.hasPath (Lodash.setPath (.jobj []) ["color", "name"] (.jstr "sapphire"))
        ["color", "name"] = true ∧
      Lodash.baseGet (Lodash.setPath (.jobj []) ["color", "name"] (.jstr "sapphire"))
        ["color", "name"] = some (.jstr "sapphire") :=
  c6_roundtrip ["color", "name"] (.jobj []) (.jstr "sapphire") (by simp) rfl rfl

/-- C6 counterexample: the claim quantifies over every key path, but the
empty path (the array form `[]` is truthy, so it is not the
root-denoting absent path) writes nothing: `set` returns the document
untouched and `has` stays false afterwards. -/
theorem c6_counterexample :
    Lodash.setPath (.jobj []) (castPath (.karr [])) (.jnum 5) = .jobj [] ∧
      Lodash.hasPath (Lodash.setPath (.jobj []) (castPath (.karr [])) (.jnum 5))
        (castPath (.karr [])) = false := ⟨rfl, rfl⟩

/-- C9: a present file with empty content loads as the empty document in
both the blocking and the non-blocking load (`data || "\x7b\x7d"`,
`data.length ? data : "\x7b\x7d"`), for every configuration. -/
theorem c9_empty_content (o : JFH.Options) :
    JFH.loadKeyValues o (some "") = .ok (.jobj []) ∧
      JFH.loadKeyValuesSync o (some "") = .ok (.jobj []) :=
  ⟨rfl, rfl⟩

/-- C10: both saves write exactly `JSON.stringify` with `numSpaces`-space
indentation when `prettify` is set, and the whitespace-free compact
serialization otherwise. -/
theorem c10_saved_text (o : JFH.Options) (d : JsonValue) :
    JFH.saveKeyValues o d =
        some (if o.prettify then jsonStringify o.numSpaces d else compactV d) ∧
      JFH.saveKeyValuesSync o d =
        some (if o.prettify then jsonStringify o.numSpaces d else compactV d) := by
  have h : JFH.savedContent o d =
      (if o.prettify then jsonStringify o.numSpaces d else compactV d) := by
    unfold JFH.savedContent
    cases hp : o.prettify with
    | true => simp
    | false => simp [jsonStringify_zero]
  exact ⟨congrArg some h, congrArg some h⟩

/-- C2 amended: when the underlying load fails, the non-blocking `get`
rejects with the stably prefixed message, while the blocking `getSync`
propagates the underlying error unwrapped; neither returns a value. -/
theorem c2_error_wrapping (o : JFH.Options) (fs : Option String) (e : String)
    (h : JFH.loadKeyValues o fs = .error e) :
    (∀ kp, V1.get o fs kp = .error ("Failed to get value: " ++ e)) ∧
      (∀ kp, V1.getSync o fs kp = .error e) := by
  have hs : JFH.loadKeyValuesSync o fs = .error e := h
  exact ⟨fun kp => by simp [V1.get, h], fun kp => by simp [V1.getSync, hs]⟩

/-- C2 witness: a file holding a lone opening brace. -/
theorem c2_error_wrapping_witness :
    V1.get defaultOptions (some "\x7b") none =
      .error ("Failed to get value: " ++ JFH.parseErrorMessage) := by
  exact (c2_error_wrapping defaultOptions (some "\x7b") JFH.parseErrorMessage rfl).1 none

/-- C2 counterexample: on the same corrupt file the two forms produce
different errors — the blocking form's message is not the wrapped
form — so the claim that both fail with the wrapped message is false. -/
theorem c2_counterexample :
    V1.get defaultOptions (some "\x7b") none =
        .error ("Failed to get value: " ++ JFH.parseErrorMessage) ∧
      V1.getSync defaultOptions (some "\x7b") none = .error JFH.parseErrorMessage ∧
      "Failed to get value: " ++ JFH.parseErrorMessage ≠ JFH.parseErrorMessage :=
  ⟨rfl, rfl, by decide⟩

/-- C3 amended: the resolved file path joins, with `path.join`, the
trimmed configured directory when it stays non-empty; the current
directory `./` (not the default directory) when a configured directory
trims to empty; and the cwd-resolved, trimmed default directory when no
directory is configured — with the trimmed file name, the default name
substituted when it trims to empty. -/
theorem c3_file_path (cwd : String) (o : JFH.Options) :
    (∀ d, o.dir = some d → jsTrim d ≠ "" →
        JFH.getJsonFilePath cwd o =
          JFH.pathJoin (jsTrim d)
            (if jsTrim o.fileName = "" then JFH.DEFAULT_FILE_NAME else jsTrim o.fileName)) ∧
      (∀ d, o.dir = some d → jsTrim d = "" →
        JFH.getJsonFilePath cwd o =
          JFH.pathJoin "./"
            (if jsTrim o.fileName = "" then JFH.DEFAULT_FILE_NAME else jsTrim o.fileName)) ∧
      (o.dir = none →
        JFH.getJsonFilePath cwd o =
          JFH.pathJoin
            (if jsTrim (JFH.pathResolve cwd JFH.DEFAULT_DIR_NAME) = "" then "./"
             else jsTrim (JFH.pathResolve cwd JFH.DEFAULT_DIR_NAME))
            (if jsTrim o.fileName = "" then JFH.DEFAULT_FILE_NAME else jsTrim o.fileName)) := by
  refine ⟨?_, ?_, ?_⟩
  · intro d hd hne
    unfold JFH.getJsonFilePath JFH.getJsonDirPath
    simp [hd, hne]
  · intro d hd he
    unfold JFH.getJsonFilePath JFH.getJsonDirPath
    simp [hd, he]
  · intro hd
    unfold JFH.getJsonFilePath JFH.getJsonDirPath
    simp [hd]

/-- C3 witness: a directory and file name that trim to non-empty
values. -/
theorem c3_file_path_witness :
    JFH.getJsonFilePath "/app" (JFH.Options.mk true (some " conf ") " my.json " false 2) =
      "conf/my.json" := by
  have h := (c3_file_path "/app"
      (JFH.Options.mk true (some " conf ") " my.json " false 2)).1 " conf " rfl (by decide)
  exact h

/-- C3 counterexample: a configured directory of one space trims to
empty; the code resolves the current directory (the join collapses
`./`), not the fixed default directory `localdb` that the claim
names. -/
theorem c3_counterexample :
    JFH.getJsonFilePath "/app" (JFH.Options.mk true (some " ") "data.json" false 2) =
        "data.json" ∧
      JFH.pathJoin JFH.DEFAULT_DIR_NAME "data.json" = "localdb/data.json" ∧
      ("data.json" : String) ≠ "localdb/data.json" :=
  ⟨rfl, rfl, by decide⟩

/-- C4: observed at the failing input.  The constructor hands its merged
options record to the helper; `reset()` rebinds only the facade's own
field, so the file path (and hence every load and save) still follows
the pre-reset custom configuration, not the restored defaults. -/
theorem c4_code_divergence :
    KV.file "/app"
        (KV.reset (KV.make (some (PartialOptions.mk none none (some "custom.json") none none)))) =
        "localdb/custom.json" ∧
      KV.file "/app" (KV.make none) = "localdb/keyvalues.json" ∧
      ("localdb/custom.json" : String) ≠ "localdb/keyvalues.json" :=
  ⟨rfl, rfl, by decide⟩

/-- C5 amended: the empty-string key path is falsy, so `get('')` returns
the whole document (as does an absent path) and `unset('')` runs the
whole-document clear; but `has('')` hands the path to lodash, which
checks for an own property literally named the empty string — the root
is not reported present. -/
theorem c5_empty_path (o : JFH.Options) (fs : Option String) (d : JsonValue)
    (h : JFH.loadKeyValues o fs = .ok d) :
    V1.get o fs (some (.kstr "")) = .ok (some d) ∧
      V1.get o fs none = .ok (some d) ∧
      V1.unset o fs (some (.kstr "")) = V1.unset o fs none ∧
      V1.has o fs (.kstr "") = .ok ((Lodash.getOwn d "").isSome) := by
  refine ⟨?_, ?_, ?_, ?_⟩
  · simp [V1.get, h, KeyPath.truthy]
  · simp [V1.get, h]
  · simp [V1.unset, h, KeyPath.truthy]
  · cases hg : Lodash.getOwn d "" with
    | none => simp [V1.has, h, castPath, Lodash.hasPath_cons, hg]
    | some w => simp [V1.has, h, castPath, Lodash.hasPath_cons, hg]

/-- C5 witness: a one-key document. -/
theorem c5_empty_path_witness :
    V1.get defaultOptions (some "\x7b\"a\":1\x7d") (some (.kstr "")) =
        .ok (some (.jobj [("a", .jnum 1)])) ∧
      V1.get defaultOptions (some "\x7b\"a\":1\x7d") none =
        .ok (some (.jobj [("a", .jnum 1)])) ∧
      V1.unset defaultOptions (some "\x7b\"a\":1\x7d") (some (.kstr "")) =
        V1.unset defaultOptions (some "\x7b\"a\":1\x7d") none ∧
      V1.has defaultOptions (some "\x7b\"a\":1\x7d") (.kstr "") = .ok false :=
  c5_empty_path defaultOptions (some "\x7b\"a\":1\x7d") (.jobj [("a", .jnum 1)]) rfl

/-- C5 counterexample: on the document with the single key `a`, `has('')`
answers false, not the claimed true. -/
theorem c5_counterexample :
    V1.has defaultOptions (some "\x7b\"a\":1\x7d") (.kstr "") = .ok false ∧
      (Except.ok false : Except String Bool) ≠ .ok true :=
  ⟨rfl, by simp⟩

/-- C8 amended: a present file whose content is non-empty and not valid
JSON makes both loads fail with the parse error, which reaches the
callers of `get`/`getSync` (wrapped in the non-blocking form) and
`has`/`hasSync`; nothing is coerced to the empty document. -/
theorem c8_malformed_fails (o : JFH.Options) (c : String) (p : KeyPath)
    (hne : c ≠ "") (hbad : jsonParse c = none) :
    JFH.loadKeyValues o (some c) = .error JFH.parseErrorMessage ∧
      JFH.loadKeyValuesSync o (some c) = .error JFH.parseErrorMessage ∧
      V1.get o (some c) none = .error ("Failed to get value: " ++ JFH.parseErrorMessage) ∧
      V1.getSync o (some c) none = .error JFH.parseErrorMessage ∧
      V1.has o (some c) p = .error JFH.parseErrorMessage ∧
      V1.hasSync o (some c) p = .error JFH.parseErrorMessage := by
  have hl : JFH.loadKeyValues o (some c) = .error JFH.parseErrorMessage := by
    unfold JFH.loadKeyValues JFH.ensuredContent
    simp [hne, hbad]
  have hls : JFH.loadKeyValuesSync o (some c) = .error JFH.parseErrorMessage := hl
  exact ⟨hl, hls, by simp [V1.get, hl], by simp [V1.getSync, hls],
    by simp [V1.has, hl], by simp [V1.hasSync, hls]⟩

/-- C8 witness: the repository's own malformed fixture, a trailing
comma. -/
theorem c8_malformed_fails_witness :
    V1.get defaultOptions (some "\x7b\"key\": \"value\",\x7d") none =
        .error ("Failed to get value: " ++ JFH.parseErrorMessage) ∧
      V1.getSync defaultOptions (some "\x7b\"key\": \"value\",\x7d") none =
        .error JFH.parseErrorMessage := by
  have h := c8_malformed_fails defaultOptions "\x7b\"key\": \"value\",\x7d" (.kstr "k")
    (by decide) rfl
  exact ⟨h.2.2.1, h.2.2.2.1⟩

/-- C8 counterexample: the empty string is not valid JSON
(`JSON.parse("")` throws) yet a present file with empty content loads
as the empty document, so the claim quantified over every invalid
content is false at this input. -/
theorem c8_counterexample :
    jsonParse "" = none ∧
      JFH.loadKeyValues defaultOptions (some "") = .ok (.jobj []) ∧
      JFH.loadKeyValuesSync defaultOptions (some "") = .ok (.jobj []) :=
  ⟨rfl, rfl, rfl⟩

/-- A quoted JSON string is at least its two quote characters long. -/
theorem jsonQuote_length (s : String) : 2 ≤ (jsonQuote s).length := by
  unfold jsonQuote
  rw [String.length_append, String.length_append]
  have h1 : ("\"" : String).length = 1 := rfl
  omega

/-- A non-empty object never serializes to the empty-object text. -/
theorem compact_obj_cons_ne (k : String) (v : JsonValue) (ms : List (String × JsonValue)) :
    compactV (.jobj ((k, v) :: ms)) ≠ "\x7b\x7d" := by
  intro h
  have hl := congrArg String.length h
  have h2 : ("\x7b\x7d" : String).length = 2 := rfl
  have h1 : ("\x7b" : String).length = 1 := rfl
  have h3 : ("\x7d" : String).length = 1 := rfl
  have hc : (":" : String).length = 1 := rfl
  have hq := jsonQuote_length k
  rw [h2] at hl
  simp only [compactV, compactMember, String.length_append, h1, h3, hc] at hl
  omega

/-- Loading again after a load's ensure step yields the same document:
the ensure step only materializes the file the first load already saw
(or created). -/
theorem load_after_ensure (o : JFH.Options) (fs : Option String) (d : JsonValue)
    (h : JFH.loadKeyValues o fs = .ok d) :
    JFH.loadKeyValues o (JFH.fsAfterLoad o fs) = .ok d := by
  cases fs with
  | some c => exact h
  | none => exact h

/-- C7: with no key path, `unset` on a document that serializes to the
empty object reports false and leaves the stored document as it was,
while on a non-empty document it saves the empty object, reports true,
and a subsequent `get()` returns the empty document — in the blocking
and non-blocking forms of both facade generations. -/
theorem c7_unset_all (o : JFH.Options) (fs : Option String) (f : List (String × JsonValue))
    (h : JFH.loadKeyValues o fs = .ok (.jobj f)) :
    (f = [] →
      V1.unset o fs none = .ok (JFH.fsAfterLoad o fs, false) ∧
        V1.unsetSync o fs none = .ok (JFH.fsAfterLoad o fs, false) ∧
        Core.unset o fs none = .ok (JFH.fsAfterLoad o fs, false) ∧
        Core.unsetSync o fs none = .ok (JFH.fsAfterLoad o fs, false) ∧
        JFH.loadKeyValues o (JFH.fsAfterLoad o fs) = .ok (.jobj f)) ∧
      (f ≠ [] →
        V1.unset o fs none = .ok (JFH.saveKeyValues o (.jobj []), true) ∧
          V1.unsetSync o fs none = .ok (JFH.saveKeyValues o (.jobj []), true) ∧
          Core.unset o fs none = .ok (JFH.saveKeyValues o (.jobj []), true) ∧
          Core.unsetSync o fs none = .ok (JFH.saveKeyValues o (.jobj []), true) ∧
          V1.get o (JFH.saveKeyValues o (.jobj [])) none = .ok (some (.jobj []))) := by
  have hs : JFH.loadKeyValuesSync o fs = .ok (.jobj f) := h
  have he : jsonStringify 0 (JsonValue.jobj []) = "\x7b\x7d" := rfl
  constructor
  · rintro rfl
    refine ⟨?_, ?_, ?_, ?_, load_after_ensure o fs _ h⟩
    · simp [V1.unset, h, V1.unsetAllBranch, he]
    · simp [V1.unsetSync, hs, V1.unsetAllBranch, he]
    · simp [Core.unset, h, he]
    · simp [Core.unsetSync, hs, he]
  · intro hne
    obtain ⟨m, ms, rfl⟩ := List.exists_cons_of_ne_nil hne
    obtain ⟨k, v⟩ := m
    have hne2 : jsonStringify 0 (JsonValue.jobj ((k, v) :: ms)) ≠ "\x7b\x7d" := by
      rw [jsonStringify_zero]
      exact compact_obj_cons_ne k v ms
    have hget : V1.get o (JFH.saveKeyValues o (.jobj [])) none = .ok (some (.jobj [])) := rfl
    have hsv : JFH.saveKeyValuesSync o (JsonValue.jobj []) = JFH.saveKeyValues o (JsonValue.jobj []) := rfl
    exact ⟨by simp [V1.unset, h, V1.unsetAllBranch, hne2],
      by simp [V1.unsetSync, hs, V1.unsetAllBranch, hne2, hsv],
      by simp [Core.unset, h, hne2], by simp [Core.unsetSync, hs, hne2, hsv], hget⟩

/-- C7 witness: the two sides at the concrete empty and one-key
documents. -/
theorem c7_unset_all_witness :
    V1.unset defaultOptions (some "\x7b\x7d") none =
        .ok (JFH.fsAfterLoad defaultOptions (some "\x7b\x7d"), false) ∧
      V1.unset defaultOptions (some "\x7b\"a\":1\x7d") none =
        .ok (JFH.saveKeyValues defaultOptions (.jobj []), true) ∧
      V1.get defaultOptions (JFH.saveKeyValues defaultOptions (.jobj [])) none =
        .ok (some (.jobj [])) :=
  ⟨((c7_unset_all defaultOptions (some "\x7b\x7d") [] rfl).1 rfl).1,
    ((c7_unset_all defaultOptions (some "\x7b\"a\":1\x7d") [("a", .jnum 1)] rfl).2
      (by simp)).1,
    ((c7_unset_all defaultOptions (some "\x7b\"a\":1\x7d") [("a", .jnum 1)] rfl).2
      (by simp)).2.2.2.2⟩

/-- lodash's remove report is `true` whenever the resolved parent is not
a string primitive and the terminal key is not an array's `length` —
in particular whenever the path never existed (missing parent, or a
delete of an absent object key).  The report is not "the path existed
and was removed". -/
theorem Lodash.unsetPath_report_true : ∀ (d : JsonValue) (path : List String),
    (∀ s, Lodash.unsetParent d path ≠ some (.jstr s)) →
    Lodash.lastKeyOf path ≠ "length" →
    (Lodash.unsetPath d path).2 = true
  | d, [], hstr, hlen => by
    cases d with
    | jstr s => exact absurd rfl (hstr s)
    | jarr l => simp [Lodash.unsetPath, Lodash.deleteKey, Lodash.parseUintStr, Lodash.isUintStr]
    | jobj f => rfl
    | jnull => rfl
    | jbool b => rfl
    | jnum n => rfl
  | d, [k], hstr, hlen => by
    have hk : k ≠ "length" := hlen
    cases d with
    | jstr s => exact absurd rfl (hstr s)
    | jarr l =>
      show (Lodash.deleteKey (.jarr l) k).2 = true
      cases hpk : Lodash.parseUintStr k with
      | some n =>
        simp only [Lodash.deleteKey, hpk]
        split <;> rfl
      | none => simp [Lodash.deleteKey, hpk, hk]
    | jobj f => rfl
    | jnull => rfl
    | jbool b => rfl
    | jnum n => rfl
  | d, k1 :: k2 :: ks, hstr, hlen => by
    simp only [Lodash.unsetPath]
    have hpar2 : Lodash.unsetParent d (k1 :: k2 :: ks) =
        Lodash.baseGet d ((k1 :: k2 :: ks).dropLast) := by
      unfold Lodash.unsetParent
      rw [if_neg (by simp)]
    have hlen2 : (k1 :: k2 :: ks).getLastD "undefined" ≠ "length" := hlen
    cases hbg : Lodash.baseGet d ((k1 :: k2 :: ks).dropLast) with
    | none => rfl
    | some pv =>
      rw [hbg] at hpar2
      cases pv with
      | jstr s => exact absurd hpar2 (hstr s)
      | jnull => rfl
      | jobj f => rfl
      | jarr l =>
        show (Lodash.deleteKey (.jarr l) ((k1 :: k2 :: ks).getLastD "undefined")).2 = true
        have hfold : (k1 :: k2 :: ks).getLastD "undefined" =
            (k2 :: ks).getLast?.getD "undefined" := rfl
        cases hpk : Lodash.parseUintStr ((k1 :: k2 :: ks).getLastD "undefined") with
        | some n =>
          simp only [Lodash.deleteKey, hpk]
          split <;> rfl
        | none =>
          rw [hfold] at hpk hlen2
          simp [Lodash.deleteKey, hpk, hlen2]
      | jbool b => rfl
      | jnum n => rfl

/-- C1 amended: with a truthy key path, both generations load and run
lodash's remove; the first generation saves the mutated document if and
only if the remove reported success and returns that report (document
untouched and false otherwise); the second generation, on a document
that does not stringify to the empty object, saves the mutated document
on success but saves the empty object and still returns true on
failure.  The report itself (last conjunct) is true whenever the
terminal delete did not land on a non-configurable property — not "the
path existed and was removed". -/
theorem c1_unset_with_path (o : JFH.Options) (fs : Option String) (d : JsonValue)
    (p : KeyPath) (h : JFH.loadKeyValues o fs = .ok d) (hp : p.truthy = true) :
    (V1.unset o fs (some p) =
        .ok (if (Lodash.unsetPath d (castPath p)).2 then
               (JFH.saveKeyValues o (Lodash.unsetPath d (castPath p)).1, true)
             else (JFH.fsAfterLoad o fs, false))) ∧
      (V1.unsetSync o fs (some p) =
        .ok (if (Lodash.unsetPath d (castPath p)).2 then
               (JFH.saveKeyValues o (Lodash.unsetPath d (castPath p)).1, true)
             else (JFH.fsAfterLoad o fs, false))) ∧
      (Core.unset o fs (some p) =
        .ok (if jsonStringify 0 d = "\x7b\x7d" then (JFH.fsAfterLoad o fs, false)
             else if (Lodash.unsetPath d (castPath p)).2 then
               (JFH.saveKeyValues o (Lodash.unsetPath d (castPath p)).1, true)
             else (JFH.saveKeyValues o (.jobj []), true))) ∧
      ((∀ s, Lodash.unsetParent d (castPath p) ≠ some (.jstr s)) →
        Lodash.lastKeyOf (castPath p) ≠ "length" →
        (Lodash.unsetPath d (castPath p)).2 = true) := by
  have hs : JFH.loadKeyValuesSync o fs = .ok d := h
  have hsv : ∀ x, JFH.saveKeyValuesSync o x = JFH.saveKeyValues o x := fun _ => rfl
  refine ⟨?_, ?_, ?_, fun hstr hlen => Lodash.unsetPath_report_true d (castPath p) hstr hlen⟩
  · by_cases hr : (Lodash.unsetPath d (castPath p)).2 <;> simp [V1.unset, h, hp, hr]
  · by_cases hr : (Lodash.unsetPath d (castPath p)).2 <;>
      simp [V1.unsetSync, hs, hp, hr, hsv]
  · by_cases hemp : jsonStringify 0 d = "\x7b\x7d"
    · simp [Core.unset, h, hemp]
    · by_cases hr : (Lodash.unsetPath d (castPath p)).2 <;>
        simp [Core.unset, h, hp, hemp, hr]

/-- C1 witness: removing the absent key `b` from the one-key document:
the remove reports success, the document is saved unchanged, and true
is returned. -/
theorem c1_unset_with_path_witness :
    V1.unset defaultOptions (some "\x7b\"a\":1\x7d") (some (.kstr "b")) =
        .ok (JFH.saveKeyValues defaultOptions (.jobj [("a", .jnum 1)]), true) ∧
      (Lodash.unsetPath (.jobj [("a", .jnum 1)]) (castPath (.kstr "b"))).2 = true := by
  have h := c1_unset_with_path defaultOptions (some "\x7b\"a\":1\x7d")
    (.jobj [("a", .jnum 1)]) (.kstr "b") rfl rfl
  refine ⟨h.1, h.2.2.2 ?_ (by decide)⟩
  intro s hc
  simp [Lodash.unsetParent, castPath] at hc

/-- C1 counterexample:
with the document mapping `a` to the string `hi`, removing `a[0]`
fails (a string's index properties are non-configurable), yet the
second generation saves the empty document over the store and returns
true; and with the document mapping only `a`, removing the
never-existing `b` reports success, so the first generation saves and
returns true where the claim requires false. -/
theorem c1_counterexample :
    (Lodash.unsetPath (.jobj [("a", .jstr "hi")]) (castPath (.karr ["a", "0"]))).2 = false ∧
      Core.unset defaultOptions (some "\x7b\"a\":\"hi\"\x7d") (some (.karr ["a", "0"])) =
        .ok (some "\x7b\x7d", true) ∧
      Lodash.hasPath (.jobj [("a", .jnum 1)]) (castPath (.kstr "b")) = false ∧
      V1.unset defaultOptions (some "\x7b\"a\":1\x7d") (some (.kstr "b")) =
        .ok (some "\x7b\"a\":1\x7d", true) :=
  ⟨rfl, rfl, rfl, rfl⟩
